import Mathlib

/-
Verification of the core data-transformation logic of the ultrasonic-testing
Excel form-filling program (探伤excel填表.py).

The Python source is shallowly embedded: strings are `String`/`List Char`,
Python `None` is `Option`, a raised exception is `Except.error`, Python floats
are modelled as `ℚ` (decimal literals parse exactly; the only divergence from
IEEE doubles would be at rounding boundaries never exercised here), and regex
matching is implemented with the leftmost-match, greedy-with-backtracking
semantics of `re.search` / `re.findall` specialized to the source's patterns.
-/

namespace UTForm

/- ------------------- character and string utilities ------------------- -/

/-- Value of an ASCII digit character. -/
def digitVal (c : Char) : Nat := c.toNat - 48

/-- Characters stripped by Python str.strip() (ASCII whitespace). -/
def isPySpace (c : Char) : Bool :=
  c = ' ' || c = '\t' || c = '\n' || c = '\r' || c = Char.ofNat 11 || c = Char.ofNat 12

/-- Python str.strip() on a character list. -/
def pyStripL (cs : List Char) : List Char :=
  ((cs.dropWhile isPySpace).reverse.dropWhile isPySpace).reverse

/-- Python str.strip() on a string. -/
def pyStrip (s : String) : String := String.mk (pyStripL s.toList)

/-- Python str.upper() (ASCII letters; CJK characters are unaffected). -/
def upperL (cs : List Char) : List Char := cs.map Char.toUpper

/-- Whether the first list is a prefix of the second. -/
def isPrefixL : List Char → List Char → Bool
  | [], _ => true
  | _ :: _, [] => false
  | a :: as, b :: bs => a = b && isPrefixL as bs

/-- Python substring containment (needle in haystack). -/
def containsL (needle : List Char) : List Char → Bool
  | [] => needle.isEmpty
  | c :: cs => isPrefixL needle (c :: cs) || containsL needle cs

/-- Python str.replace (all non-overlapping occurrences, left to right);
fuel-driven recursion, fuel is the length of the scanned list. -/
def replaceAux (needle repl : List Char) : Nat → List Char → List Char
  | 0, cs => cs
  | _ + 1, [] => []
  | fuel + 1, c :: cs =>
    if isPrefixL needle (c :: cs) then
      repl ++ replaceAux needle repl fuel (List.drop needle.length (c :: cs))
    else
      c :: replaceAux needle repl fuel cs

/-- Python str.replace on a character list. -/
def replaceL (cs needle repl : List Char) : List Char :=
  replaceAux needle repl cs.length cs

/-- Decimal digit string of a natural number (Python str(n) for n ≥ 0);
fuel-driven recursion. -/
def natStrAux : Nat → Nat → List Char
  | 0, _ => []
  | fuel + 1, n =>
    if n < 10 then [Nat.digitChar n]
    else natStrAux fuel (n / 10) ++ [Nat.digitChar (n % 10)]

/-- Python str(n) for a natural number. -/
def natStr (n : Nat) : List Char := natStrAux (n + 1) n

/-- Python str(i) for an integer. -/
def intStr (i : Int) : List Char :=
  if i < 0 then '-' :: natStr i.natAbs else natStr i.natAbs

/-- Numeric value of a digit-character list (most significant first). -/
def valOf (ds : List Char) : Nat := ds.foldl (fun a c => 10 * a + digitVal c) 0

/- ------------------- dates (Python datetime) ------------------- -/

/-- A calendar date as carried by a Python datetime (validity is enforced by
the `mkDate` constructor, mirroring the datetime constructor). -/
structure Date where
  year : Nat
  month : Nat
  day : Nat
deriving DecidableEq

/-- Proleptic Gregorian leap year, as used by Python datetime. -/
def isLeap (y : Nat) : Bool := y % 4 = 0 && (y % 100 != 0 || y % 400 = 0)

/-- Days in a month, equal to (datetime(y,m+1,1) - datetime(y,m,1)).days. -/
def daysInMonth (y m : Nat) : Nat :=
  if m = 2 then (if isLeap y then 29 else 28)
  else if m = 4 || m = 6 || m = 9 || m = 11 then 30
  else 31

/-- Validity check of the Python datetime constructor
(year 1..9999, month 1..12, day 1..days-in-month). -/
def isValidDate (y m d : Nat) : Bool :=
  1 ≤ y && y ≤ 9999 && 1 ≤ m && m ≤ 12 && 1 ≤ d && d ≤ daysInMonth y m

/-- datetime(y, m, d): `none` models a raised ValueError. -/
def mkDate (y m d : Nat) : Option Date :=
  if isValidDate y m d then some ⟨y, m, d⟩ else none

/-- Key realizing the datetime total order (lexicographic on year, month, day)
for the dates produced here (month ≤ 12, day ≤ 31). -/
def dateKey (dt : Date) : Nat := dt.year * 10000 + dt.month * 100 + dt.day

/- ------------------- DateLexicon: regex (\d{4})年(\d{1,2})月(\d{1,2})日 --- -/

/-- Match exactly four digits at the head, returning their value and the rest. -/
def match4 : List Char → Option (Nat × List Char)
  | a :: b :: c :: d :: rest =>
    if a.isDigit && b.isDigit && c.isDigit && d.isDigit then
      some (((digitVal a * 10 + digitVal b) * 10 + digitVal c) * 10 + digitVal d, rest)
    else none
  | _ => none

/-- Match a literal character at the head. -/
def expectChar (ch : Char) : List Char → Option (List Char)
  | c :: rest => if c = ch then some rest else none
  | [] => none

/-- Match \d{1,2} followed by a literal delimiter, with the greedy
two-digits-first, backtrack-to-one semantics of the Python regex. -/
def match12 (delim : Char) : List Char → Option (Nat × List Char)
  | a :: rest =>
    if a.isDigit then
      match rest with
      | b :: rest2 =>
        if b.isDigit then
          match rest2 with
          | c :: rest3 =>
            if c = delim then some (digitVal a * 10 + digitVal b, rest3)
            else if b = delim then some (digitVal a, rest2) else none
          | [] => if b = delim then some (digitVal a, rest2) else none
        else if b = delim then some (digitVal a, rest2) else none
      | [] => none
    else none
  | [] => none

/-- Match the full pattern (\d{4})年(\d{1,2})月(\d{1,2})日 at the head. -/
def matchDateAt (cs : List Char) : Option ((Nat × Nat × Nat) × List Char) :=
  match match4 cs with
  | none => none
  | some (y, r1) =>
    match expectChar '年' r1 with
    | none => none
    | some r2 =>
      match match12 '月' r2 with
      | none => none
      | some (m, r3) =>
        match match12 '日' r3 with
        | none => none
        | some (d, r4) => some ((y, m, d), r4)

/-- re.search: leftmost occurrence of the date pattern. -/
def searchDate : List Char → Option ((Nat × Nat × Nat) × List Char)
  | [] => none
  | c :: cs =>
    match matchDateAt (c :: cs) with
    | some r => some r
    | none => searchDate cs

/-- re.findall: all non-overlapping occurrences, left to right (fuel-driven;
the fuel, initially the list length, dominates the number of steps). -/
def findAllAux : Nat → List Char → List (Nat × Nat × Nat)
  | 0, _ => []
  | _ + 1, [] => []
  | fuel + 1, c :: cs =>
    match matchDateAt (c :: cs) with
    | some (t, rest) => t :: findAllAux fuel rest
    | none => findAllAux fuel cs

/-- All "(\d{4})年(\d{1,2})月(\d{1,2})日" matches in a string. -/
def findAllDates (s : String) : List (Nat × Nat × Nat) :=
  findAllAux s.toList.length s.toList

/-- parse_cn_date: first date pattern, validated; the try/except ValueError
around datetime() is the `mkDate` option. -/
def parse_cn_date (s : String) : Option Date :=
  match searchDate s.toList with
  | none => none
  | some ((y, m, d), _) => mkDate y m d

/-- parse_cn_date_range: all date patterns; the datetime() calls are NOT
guarded in the source, so an invalid matched date is a raised ValueError,
modelled as `Except.error ()`. -/
def parse_cn_date_range (s : String) : Except Unit (Option Date × Option Date) :=
  match findAllDates s with
  | [] => Except.ok (none, none)
  | [(y, m, d)] =>
    match mkDate y m d with
    | some dt => Except.ok (some dt, none)
    | none => Except.error ()
  | (y1, m1, d1) :: (y2, m2, d2) :: _ =>
    match mkDate y1 m1 d1 with
    | none => Except.error ()
    | some a =>
      match mkDate y2 m2 d2 with
      | none => Except.error ()
      | some b => Except.ok (some a, some b)

/-- format_cn_date: the f-string "{year}年{month}月{day}日" (no zero padding). -/
def format_cn_date (dt : Date) : String :=
  String.mk (natStr dt.year ++ ('年' :: (natStr dt.month ++ ('月' :: (natStr dt.day ++ ['日'])))))

/- ------------------- TemperatureEstimator ------------------- -/

/-- The fixed monthly-mean table (months 1..12; other keys never occur on
datetime-derived input). -/
def month_mean (m : Nat) : Int :=
  if m = 1 then -3 else if m = 2 then 0 else if m = 3 then 6 else if m = 4 then 14
  else if m = 5 then 20 else if m = 6 then 24 else if m = 7 then 26 else if m = 8 then 25
  else if m = 9 then 20 else if m = 10 then 13 else if m = 11 then 5 else if m = 12 then -1
  else 0

/-- Python round(): nearest integer, ties to even. -/
def pyRound (q : ℚ) : Int :=
  let f := Int.floor q
  let fr := q - (f : ℚ)
  if fr < 1/2 then f
  else if 1/2 < fr then f + 1
  else if f % 2 = 0 then f else f + 1

/-- The arithmetic tail of beijing_temp_guess_number: fractional position of
the day in its month, linear interpolation between the monthly means, the
deterministic perturbation ((day * 37) mod 5) - 2, banker-rounded. -/
def tempCore (days_in_month next_month : Nat) (dt : Date) : String :=
  String.mk (intStr (pyRound
    ((month_mean dt.month : ℚ) +
      (((dt.day : ℚ) - 1) / ((max (days_in_month - 1) 1 : Nat) : ℚ)) *
        ((month_mean next_month : ℚ) - (month_mean dt.month : ℚ)) +
      (((((dt.day * 37) % 5 : Nat) : Int) - 2 : Int) : ℚ))))

/-- beijing_temp_guess_number. The day-count computation constructs
datetime(year+1, 1, 1) (resp. datetime(year, month+1, 1)); constructor
failure propagates as a raised ValueError (`Except.error`). The resulting
datetime difference in days equals `daysInMonth` (31 for December). -/
def beijing_temp_guess_number : Option Date → Except Unit String
  | none => Except.ok ""
  | some dt =>
    if dt.month = 12 then
      match mkDate (dt.year + 1) 1 1, mkDate dt.year 12 1 with
      | some _, some _ => Except.ok (tempCore 31 1 dt)
      | _, _ => Except.error ()
    else
      match mkDate dt.year (dt.month + 1) 1, mkDate dt.year dt.month 1 with
      | some _, some _ => Except.ok (tempCore (daysInMonth dt.year dt.month) (dt.month + 1) dt)
      | _, _ => Except.error ()

/- ------------------- FieldExtractor: labels ------------------- -/

/-- The fixed label vocabulary. -/
def label_tokens : List String :=
  ["超声波探伤报告", "编号", "试验编号", "委托编号", "工程名称及", "施工部位", "委托单位",
   "施工单位", "监理单位", "构件名称", "检测部位", "材质", "板厚", "仪器型号", "试块",
   "耦合剂", "表面补偿", "表面状况", "执行处理", "探头型号", "探伤日期", "批准", "审核",
   "试验", "检测单位", "报告日期", "检测单位名称"]

/-- is_label: trimmed text is empty or contains a vocabulary token. -/
def is_label (text : String) : Bool :=
  let t := pyStrip text
  t = "" || label_tokens.any (fun tok => containsL tok.toList t.toList)

/-- Index of the first cell containing the label substring. -/
def firstLabelIdxAux : Nat → List String → String → Option Nat
  | _, [], _ => none
  | i, c :: cs, lab =>
    if containsL lab.toList c.toList then some i else firstLabelIdxAux (i + 1) cs lab

/-- The scan right of the label cell: first stripped cell text that is
non-empty and not itself a label. -/
def scanAfter : List String → Option String
  | [] => none
  | c :: rest =>
    let t := pyStrip c
    if t ≠ "" ∧ is_label t = false then some t else scanAfter rest

/-- value_after_label from the source. -/
def value_after_label (row_cells : List String) (label_sub : String) : Option String :=
  match firstLabelIdxAux 0 row_cells label_sub with
  | none => none
  | some j => scanAfter (row_cells.drop (j + 1))

/- ------------------- BasisCodeDispatcher ------------------- -/

/-- normalize_code: uppercase, strip spaces, unify dash variants. -/
def normalize_code (s : String) : String :=
  String.mk (replaceL (replaceL (replaceL (upperL s.toList) [' '] []) ['—'] ['-']) ['－'] ['-'])

/-- The caller-side normalization: normalize_code followed by GBT → GB/T. -/
def normFull (t : String) : String :=
  String.mk (replaceL (normalize_code t).toList ['G', 'B', 'T'] ['G', 'B', '/', 'T'])

/-- The fixed code → output-address dict, transliterated: the address of a
normalized code ("" for codes outside the dict, which is never consulted). -/
def addrOf (n : String) : String :=
  if n = "GB50205-2020" then "B12:B12"
  else if n = "GB50661-2011" then "C12:C12"
  else if n = "JG/T203-2007" then "D12:D12"
  else if n = "GB/T50621-2010" then "E12:E12"
  else if n = "GB/T11345-2023" then "F12:F12"
  else if n = "GB/T29712-2023" then "G12:G12"
  else if n = "GB/T29711-2023" then "H12:H12"
  else ""

/-- Membership test of the code dict (`norm in address_map`). -/
def isKnownCode (n : String) : Bool :=
  n = "GB50205-2020" || n = "GB50661-2011" || n = "JG/T203-2007" || n = "GB/T50621-2010" ||
    n = "GB/T11345-2023" || n = "GB/T29712-2023" || n = "GB/T29711-2023"

/-- Characters of the token-splitting class [、，,;；\s]. -/
def isSepChar (c : Char) : Bool :=
  c = '、' || c = '，' || c = ',' || c = ';' || c = '；' || isPySpace c

/-- re.split on runs of separator characters (empty pieces are produced at
boundaries and between adjacent separators; the caller filters them out,
giving the same kept tokens as Python's split on the one-or-more class). -/
def splitSepsAux : List Char → List Char → List (List Char)
  | [], cur => [cur.reverse]
  | c :: cs, cur =>
    if isSepChar c then cur.reverse :: splitSepsAux cs [] else splitSepsAux cs (c :: cur)

/-- The token list of write_detection_basis. -/
def tokenizeBasis (s : String) : List String :=
  ((splitSepsAux s.toList []).map String.mk).filter (fun t => pyStrip t ≠ "")

/-- The token loop of write_detection_basis: returns the slot writes in
order and the unknown-token list, given the set of already used codes. -/
def dispatchAux : List String → List String → List (String × String) × List String
  | [], _ => ([], [])
  | t :: ts, used =>
    let n := normFull t
    if isKnownCode n ∧ n ∉ used then
      let r := dispatchAux ts (n :: used)
      ((addrOf n, pyStrip t) :: r.1, r.2)
    else
      let r := dispatchAux ts used
      (r.1, pyStrip t :: r.2)

/-- The addresses cleared at the start of write_detection_basis. -/
def clearAddrs : List String :=
  ["B12:B12", "C12:C12", "D12:D12", "E12:E12", "F12:F12", "G12:G12", "H12:H12", "I12:J12"]

/-- write_detection_basis as the ordered list of (address, value) writes it
performs against the sheet. -/
def write_detection_basis (basis_str : String) : List (String × String) :=
  (clearAddrs.map (fun a => (a, ""))) ++
    (if basis_str = "" then []
     else
       let r := dispatchAux (tokenizeBasis basis_str) []
       r.1 ++ (if r.2 = [] then [] else [("I12:J12", String.intercalate ", " r.2)]))

/- ------------------- ProbeSelector ------------------- -/

/-- The probe-rule table: (lower bound, upper bound, models); 1e9 (exactly
representable) is the source's sentinel upper bound of the last band. -/
def PROBE_RULES_D : List (ℚ × ℚ × List String) :=
  [(8, 15, ["A2.5P9×9A70°"]),
   (15, 25, ["A2.5P9×9A70°"]),
   (25, 40, ["A2.5P9×9A70°", "A2.5P9×9A45°"]),
   (40, 50, ["A2.5P9×9A60°", "A2.5P9×9A45°"]),
   (50, 75, ["A2.5P13×13A70°", "A2.5P13×13A45°"]),
   (75, 100, ["A2.5P13×13A60°", "A2.5P13×13A45°"]),
   (100, 1000000000, ["A2.5P13×13A60°", "A2.5P13×13A45°"])]

/-- The corner-butt rule table. -/
def PROBE_RULES_JD : List (ℚ × ℚ × List String) :=
  [(8, 15, ["A2.5P9×9A70°"]),
   (15, 25, ["A2.5P9×9A70°"]),
   (25, 40, ["A2.5P9×9A60°", "A2.5P9×9A45°"]),
   (40, 50, ["A2.5P9×9A70°", "A2.5P9×9A60°"]),
   (50, 75, ["A2.5P13×13A70°", "A2.5P13×13A60°", "A2.5P13×13A45°"]),
   (75, 100, ["A2.5P13×13A70°", "A2.5P13×13A60°", "A2.5P13×13A45°"]),
   (100, 1000000000, ["A2.5P9×9A70°", "A2.5P13×13A70°", "A2.5P13×13A60°", "A2.5P13×13A45°"])]

/-- PROBE_RULES keyed by weld type. -/
def PROBE_RULES (wt : String) : List (ℚ × ℚ × List String) :=
  if wt = "D" then PROBE_RULES_D else if wt = "JD" then PROBE_RULES_JD else []

/-- Take the leading run of digits. -/
def takeDigits (cs : List Char) : List Char × List Char :=
  (cs.takeWhile Char.isDigit, cs.dropWhile Char.isDigit)

/-- Numeric value of the regex match -?\d+(?:\.\d+)? anchored at the head
(sign handled by the caller). -/
def numCore (cs : List Char) : Option ℚ :=
  match takeDigits cs with
  | ([], _) => none
  | (ds, rest) =>
    match rest with
    | '.' :: rest2 =>
      match takeDigits rest2 with
      | ([], _) => some ((valOf ds : ℚ))
      | (fs, _) => some ((valOf ds : ℚ) + (valOf fs : ℚ) / ((10 : ℚ) ^ fs.length))
    | _ => some ((valOf ds : ℚ))

/-- The pattern with optional leading minus, anchored at the head. -/
def numAt : List Char → Option ℚ
  | '-' :: rest =>
    match numCore rest with
    | some q => some (-q)
    | none => none
  | cs => numCore cs

/-- re.search of (-?\d+(?:\.\d+)?): leftmost match. -/
def searchNum : List Char → Option ℚ
  | [] => none
  | c :: cs =>
    match numAt (c :: cs) with
    | some q => some q
    | none => searchNum cs

/-- _to_float: None → None, else first numeric substring of str(x).strip(). -/
def _to_float : Option String → Option ℚ
  | none => none
  | some x => searchNum (pyStripL x.toList)

/-- Python `a or b` on optional floats: None and 0.0 are falsy. -/
def orFloat (a b : Option ℚ) : Option ℚ :=
  match a with
  | some t => if t = 0 then b else some t
  | none => b

/-- One dataset row as read by choose_probes_for_segments: the weld-type
cell (column C), the primary thickness cell (column D) and the secondary
thickness cell (column E), each None or its displayed text. -/
structure DataRow where
  cellC : Option String
  cellD : Option String
  cellE : Option String

/-- str(c or "") for an optional cell. -/
def strOf : Option String → String
  | none => ""
  | some s => s

/-- _pick_weld_type with the default (absent) alternate cell. -/
def _pick_weld_type (cellC : Option String) : Option String :=
  let t := upperL (strOf cellC).toList
  if containsL ['J', 'D'] t then some "JD"
  else if containsL ['D'] t then some "D"
  else none

/-- thickness = _to_float(D cell) or _to_float(E cell). -/
def rowThickness (r : DataRow) : Option ℚ :=
  orFloat (_to_float r.cellD) (_to_float r.cellE)

/-- First interval with lower ≤ t < upper, in table order. -/
def matchInterval : List (ℚ × ℚ × List String) → ℚ → List String
  | [], _ => []
  | (low, high, models) :: rest, t =>
    if low ≤ t ∧ t < high then models else matchInterval rest t

/-- The probe models one row contributes before deduplication. -/
def rowModels (r : DataRow) : List String :=
  match _pick_weld_type r.cellC with
  | none => []
  | some wt =>
    match rowThickness r with
    | none => []
    | some t => matchInterval (PROBE_RULES wt) t

/-- Append models not already picked (the picked/seen pair of the source,
with seen = set(picked)). -/
def addModels (picked : List String) (models : List String) : List String :=
  models.foldl (fun acc m => if m ∈ acc then acc else acc ++ [m]) picked

/-- choose_probes_for_segments on the scanned rows: first-seen order,
deduplicated, truncated to 8 at the end. -/
def choose_probes_for_segments (rows : List DataRow) : List String :=
  (rows.foldl (fun acc r => addModels acc (rowModels r)) []).take 8

/- ------------------- DaySegmenter ------------------- -/

/-- Drop regex \s* (ASCII whitespace). -/
def dropWs (cs : List Char) : List Char := cs.dropWhile isPySpace

/-- The marker separator class [./月]. -/
def isMarkSep (c : Char) : Bool := c = '.' || c = '/' || c = '月'

/-- The day part \d{1,2}, greedy (nothing follows in the pattern). -/
def dayDigits : List Char → Option Nat
  | a :: b :: _ =>
    if a.isDigit then
      some (if b.isDigit then 10 * digitVal a + digitVal b else digitVal a)
    else none
  | [a] => if a.isDigit then some (digitVal a) else none
  | [] => none

/-- After the month digits: \s*[./月]\s*(\d{1,2}). -/
def restAfterMonth (mv : Nat) (cs : List Char) : Option (Nat × Nat) :=
  match dropWs cs with
  | c :: cs2 =>
    if isMarkSep c then
      match dayDigits (dropWs cs2) with
      | some dv => some (mv, dv)
      | none => none
    else none
  | [] => none

/-- The pattern (\d{1,2})\s*[./月]\s*(\d{1,2}) anchored at the head, with the
greedy-then-backtrack month digits. -/
def matchMarkerAt : List Char → Option (Nat × Nat)
  | a :: rest =>
    if a.isDigit then
      match rest with
      | b :: rest2 =>
        if b.isDigit then
          match restAfterMonth (10 * digitVal a + digitVal b) rest2 with
          | some r => some r
          | none => restAfterMonth (digitVal a) rest
        else restAfterMonth (digitVal a) rest
      | [] => restAfterMonth (digitVal a) []
    else none
  | [] => none

/-- re.search of the marker pattern: leftmost match. -/
def searchMarker : List Char → Option (Nat × Nat)
  | [] => none
  | c :: cs =>
    match matchMarkerAt (c :: cs) with
    | some r => some r
    | none => searchMarker cs

/-- Scan the marker column from row 2: (row, month, day) for each marker row.
The cell text is stripped and full-width stops are normalized first. -/
def markersAux : Nat → List (Option String) → List (Nat × Nat × Nat)
  | _, [] => []
  | r, none :: rest => markersAux (r + 1) rest
  | r, some s :: rest =>
    let txt := replaceL (replaceL (pyStripL s.toList) ['．'] ['.']) ['。'] ['.']
    match searchMarker txt with
    | some (m, d) => (r, m, d) :: markersAux (r + 1) rest
    | none => markersAux (r + 1) rest

/-- Markers of the F column, whose cells (rows 2 .. last populated row) are
given as a list, index 0 holding row 2. -/
def markersOf (cells : List (Option String)) : List (Nat × Nat × Nat) :=
  markersAux 2 cells

/-- The row-range fold: each marker closes the range
(previous marker row + 1 .. marker row); the first range starts at row 2. -/
def rangesAux : Nat → List (Nat × Nat × Nat) → List ((Nat × Nat) × (Nat × Nat))
  | _, [] => []
  | prev, (row, m, d) :: rest => ((m, d), (prev + 1, row)) :: rangesAux row rest

/-- dict.setdefault(key, []).append(r): append to an existing key's list,
else add the key at the end (insertion order preserved). -/
def addGroup : List ((Nat × Nat) × List (Nat × Nat)) → (Nat × Nat) → (Nat × Nat) →
    List ((Nat × Nat) × List (Nat × Nat))
  | [], k, r => [(k, [r])]
  | (k1, rs) :: acc, k, r =>
    if k1 = k then (k1, rs ++ [r]) :: acc else (k1, rs) :: addGroup acc k r

/-- Group the per-marker ranges by (month, day). -/
def groupRanges (l : List ((Nat × Nat) × (Nat × Nat))) :
    List ((Nat × Nat) × List (Nat × Nat)) :=
  l.foldl (fun acc kr => addGroup acc kr.1 kr.2) []

/-- Stable insertion into a list sorted by dateKey (equal keys keep the
existing element first, like Python's stable sort). -/
def insortDay (x : Date × List (Nat × Nat)) :
    List (Date × List (Nat × Nat)) → List (Date × List (Nat × Nat))
  | [] => [x]
  | y :: ys => if dateKey y.1 ≤ dateKey x.1 then y :: insortDay x ys else x :: y :: ys

/-- out.sort(key): stable sort by date. -/
def sortDays (l : List (Date × List (Nat × Nat))) : List (Date × List (Nat × Nat)) :=
  l.foldr insortDay []

/-- parse_day_ranges_from_source on the F-column cells (rows 2 .. last
populated row) and a year hint (the wall-clock default for an absent hint is
outside the modelled core, so the hint is required here). -/
def parse_day_ranges_from_source (cells : List (Option String)) (year_hint : Nat) :
    List (Date × List (Nat × Nat)) :=
  let markers := markersOf cells
  if markers = [] then []
  else
    let grouped := groupRanges (rangesAux 1 markers)
    let out := grouped.filterMap (fun kr =>
      match mkDate year_hint kr.1.1 kr.1.2 with
      | some dt => some (dt, kr.2)
      | none => none)
    sortDays out

end UTForm

namespace UTForm

/- ===================== theorems ===================== -/

/- ---- C1 ---- -/

/-- C1: the claim that neither parse_cn_date nor parse_cn_date_range can
raise on date-like text that is not a valid calendar day is violated by the
code: on "2023年2月30日" (one embedded date pattern, not a valid day)
parse_cn_date returns none as claimed, but parse_cn_date_range reaches the
unguarded datetime constructor and raises ValueError (modelled as
Except.error), instead of returning the claimed (None, None). -/
theorem c1_range_raises_on_invalid_date :
    findAllDates "2023年2月30日" = [(2023, 2, 30)] ∧
    parse_cn_date "2023年2月30日" = none ∧
    parse_cn_date_range "2023年2月30日" = Except.error () :=
  ⟨rfl, rfl, rfl⟩

/- ---- C4 ---- -/

/-- C4 (amended): parse_cn_date_range returns (none, none) on zero embedded
date patterns; with exactly one pattern that forms a valid calendar date it
returns (that date, none); with two or more patterns whose first two form
valid dates it returns the first two in textual order ignoring the rest.
(When a consulted pattern does not form a valid date the function raises,
see the counterexample.) -/
theorem c4_range_counts (s : String) :
    (findAllDates s = [] → parse_cn_date_range s = Except.ok (none, none)) ∧
    (∀ y m d dt, findAllDates s = [(y, m, d)] → mkDate y m d = some dt →
      parse_cn_date_range s = Except.ok (some dt, none)) ∧
    (∀ y1 m1 d1 y2 m2 d2 rest dt1 dt2,
      findAllDates s = (y1, m1, d1) :: (y2, m2, d2) :: rest →
      mkDate y1 m1 d1 = some dt1 → mkDate y2 m2 d2 = some dt2 →
      parse_cn_date_range s = Except.ok (some dt1, some dt2)) := by
  refine ⟨?_, ?_, ?_⟩
  · intro h
    unfold parse_cn_date_range
    rw [h]
  · intro y m d dt h hmk
    unfold parse_cn_date_range
    rw [h]
    simp only [hmk]
  · intro y1 m1 d1 y2 m2 d2 rest dt1 dt2 h h1 h2
    unfold parse_cn_date_range
    rw [h]
    simp only [h1, h2]

/-- Witness for C4 at a concrete two-date string. -/
theorem c4_range_counts_witness :
    parse_cn_date_range "2025年3月1日至2025年3月5日" =
      Except.ok (some ⟨2025, 3, 1⟩, some ⟨2025, 3, 5⟩) :=
  (c4_range_counts "2025年3月1日至2025年3月5日").2.2 2025 3 1 2025 3 5 []
    ⟨2025, 3, 1⟩ ⟨2025, 3, 5⟩ rfl rfl rfl

/-- C4 counterexample: a text with exactly one embedded date pattern on
which parse_cn_date_range returns no tuple at all (it raises), falsifying
the unconditional claim. -/
theorem c4_raise_counterexample :
    findAllDates "2024年2月30日" = [(2024, 2, 30)] ∧
    parse_cn_date_range "2024年2月30日" = Except.error () :=
  ⟨rfl, rfl⟩

/- ---- C2 ---- -/

/-- C2 (amended): the thickness used for a row is the first numeric
substring of the primary cell (column D) when that parses to a nonzero
number; when the primary cell yields no number OR parses to 0.0 (falsy in
Python's `or`), the secondary cell's parse is used instead, whatever it is;
the row contributes no probe models exactly when the resulting chain yields
no number. -/
theorem c2_thickness_fallback (r : DataRow) :
    (∀ t : ℚ, _to_float r.cellD = some t → t ≠ 0 → rowThickness r = some t) ∧
    (_to_float r.cellD = none ∨ _to_float r.cellD = some 0 →
      rowThickness r = _to_float r.cellE) ∧
    (rowThickness r = none ↔
      (_to_float r.cellE = none ∧
        (_to_float r.cellD = none ∨ _to_float r.cellD = some 0))) ∧
    (rowThickness r = none → rowModels r = [] ∧ ∀ acc, addModels acc (rowModels r) = acc) := by
  refine ⟨?_, ?_, ?_, ?_⟩
  · intro t h hne
    unfold rowThickness orFloat
    rw [h]
    simp [hne]
  · rintro (h | h)
    · simp [rowThickness, orFloat, h]
    · simp [rowThickness, orFloat, h]
  · unfold rowThickness orFloat
    rcases hD : _to_float r.cellD with _ | t
    · simp
    · by_cases ht : t = 0
      · subst ht
        simp
      · simp [ht]
  · intro h
    have hm : rowModels r = [] := by
      unfold rowModels
      rcases hw : _pick_weld_type r.cellC with _ | wt
      · rfl
      · rw [h]
    exact ⟨hm, fun acc => by rw [hm]; rfl⟩

/-- Witness for C2 at a concrete row with a nonzero primary thickness. -/
theorem c2_thickness_fallback_witness :
    rowThickness ⟨some "D", some "50", none⟩ = some 50 :=
  (c2_thickness_fallback ⟨some "D", some "50", none⟩).1 50 (by decide) (by norm_num)

/-- C2 counterexample: a primary cell parsing to the number 0 is NOT used
as-is — the secondary cell's value 50 is taken instead. -/
theorem c2_zero_primary_counterexample :
    _to_float (some "0") = some 0 ∧
    rowThickness ⟨some "D", some "0", some "50"⟩ = some 50 ∧ (50 : ℚ) ≠ 0 :=
  ⟨by decide, by decide, by norm_num⟩

/- ---- C9 ---- -/

/-- The right-of-label scan returns the first stripped cell text that is
non-empty and not label-classified. -/
theorem scanAfter_eq_find (cs : List String) :
    scanAfter cs = (cs.map pyStrip).find? (fun t => (t != "") && (!is_label t)) := by
  induction cs with
  | nil => rfl
  | cons c rest ih =>
    simp only [scanAfter, List.map_cons]
    by_cases h : pyStrip c ≠ "" ∧ is_label (pyStrip c) = false
    · rw [if_pos h, List.find?_cons_of_pos]
      simp [bne_iff_ne, h.1, h.2]
    · rw [if_neg h, ih, List.find?_cons_of_neg]
      by_cases h1 : pyStrip c = ""
      · simp [h1]
      · have h2 : is_label (pyStrip c) = true := by
          rcases Bool.eq_false_or_eq_true (is_label (pyStrip c)) with hb | hb
          · exact hb
          · exact absurd ⟨h1, hb⟩ h
        simp [h2]

/-- C9: on the row ["委托编号", "", "2025-046111"] extraction for label
"委托编号" yields "2025-046111"; and in general, once the label cell index
is found, the result is the first cell to its right whose stripped text is
non-empty and not classified as a label (empty and label cells are
skipped). -/
theorem c9_value_after_label :
    value_after_label ["委托编号", "", "2025-046111"] "委托编号" = some "2025-046111" ∧
    ∀ (cells : List String) (lab : String) (j : Nat),
      firstLabelIdxAux 0 cells lab = some j →
      value_after_label cells lab =
        ((cells.drop (j + 1)).map pyStrip).find? (fun t => (t != "") && (!is_label t)) := by
  constructor
  · rfl
  · intro cells lab j h
    unfold value_after_label
    rw [h]
    exact scanAfter_eq_find _

/-- Witness for C9 at the concrete row of the claim. -/
theorem c9_value_after_label_witness :
    value_after_label ["委托编号", "", "2025-046111"] "委托编号" =
      (((["委托编号", "", "2025-046111"] : List String).drop 1).map pyStrip).find?
        (fun t => (t != "") && (!is_label t)) :=
  (c9_value_after_label).2 ["委托编号", "", "2025-046111"] "委托编号" 0 rfl

end UTForm

namespace UTForm

/- ---- C3 ---- -/

/-- First-match lookup returns the models of an interval containing t when
every other table entry does not contain t. -/
theorem matchInterval_hit (t : ℚ) :
    ∀ (l : List (ℚ × ℚ × List String)) (lo hi : ℚ) (ms : List String),
      (lo, hi, ms) ∈ l → lo ≤ t → t < hi →
      (∀ x ∈ l, x ≠ (lo, hi, ms) → ¬(x.1 ≤ t ∧ t < x.2.1)) →
      matchInterval l t = ms := by
  intro l
  induction l with
  | nil => intro lo hi ms hmem; simp at hmem
  | cons x xs ih =>
    intro lo hi ms hmem h1 h2 hdisj
    by_cases hx : x = (lo, hi, ms)
    · subst hx
      simp only [matchInterval]
      rw [if_pos ⟨h1, h2⟩]
    · obtain ⟨a, b, c⟩ := x
      simp only [matchInterval]
      rw [if_neg (hdisj (a, b, c) (List.mem_cons_self _ _) hx)]
      rcases List.mem_cons.mp hmem with h | h
      · exact absurd h.symm hx
      · exact ih lo hi ms h h1 h2 (fun y hy hne => hdisj y (List.mem_cons_of_mem _ hy) hne)

/-- First-match lookup returns [] when no table entry contains t. -/
theorem matchInterval_nil_of (t : ℚ) :
    ∀ l : List (ℚ × ℚ × List String),
      (∀ x ∈ l, ¬(x.1 ≤ t ∧ t < x.2.1)) → matchInterval l t = [] := by
  intro l
  induction l with
  | nil => intro _; rfl
  | cons x xs ih =>
    intro h
    obtain ⟨a, b, c⟩ := x
    simp only [matchInterval]
    rw [if_neg (h (a, b, c) (List.mem_cons_self _ _))]
    exact ih (fun y hy => h y (List.mem_cons_of_mem _ hy))

/-- C3 (amended): for each weld type, a classified row's thickness matches
the unique interval of the ordered rule table with lower ≤ t < upper (so a
thickness at a lower bound matches that interval, at an upper bound the
next one, and [100, 10^9) matches the final interval, which is a member of
each table with lower bound 100); but the final upper bound is the sentinel
10^9, not infinity: thickness below 8 or at least 10^9 matches no interval. -/
theorem c3_first_interval :
    (∀ lo hi : ℚ, ∀ ms, (lo, hi, ms) ∈ PROBE_RULES "D" →
      ∀ t : ℚ, lo ≤ t → t < hi → matchInterval (PROBE_RULES "D") t = ms) ∧
    (∀ lo hi : ℚ, ∀ ms, (lo, hi, ms) ∈ PROBE_RULES "JD" →
      ∀ t : ℚ, lo ≤ t → t < hi → matchInterval (PROBE_RULES "JD") t = ms) ∧
    (∀ (wt : String) (t : ℚ), t < 8 ∨ (1000000000 : ℚ) ≤ t →
      matchInterval (PROBE_RULES wt) t = []) ∧
    ((100, 1000000000, ["A2.5P13×13A60°", "A2.5P13×13A45°"]) ∈ PROBE_RULES "D" ∧
      ((100 : ℚ), (1000000000 : ℚ),
        ["A2.5P9×9A70°", "A2.5P13×13A70°", "A2.5P13×13A60°", "A2.5P13×13A45°"]) ∈
        PROBE_RULES "JD") := by
  have hD : PROBE_RULES "D" = PROBE_RULES_D := rfl
  have hJ : PROBE_RULES "JD" = PROBE_RULES_JD := rfl
  refine ⟨?_, ?_, ?_, ?_, ?_⟩
  · intro lo hi ms hmem t h1 h2
    refine matchInterval_hit t _ lo hi ms hmem h1 h2 ?_
    intro x hx hne
    rw [hD] at hmem hx
    simp only [PROBE_RULES_D, List.mem_cons, List.not_mem_nil, or_false] at hmem hx
    rcases hmem with hm | hm | hm | hm | hm | hm | hm <;> cases hm <;>
      rcases hx with hxx | hxx | hxx | hxx | hxx | hxx | hxx <;> subst hxx <;>
      (try exact absurd rfl hne) <;> rintro ⟨ha, hb⟩ <;> dsimp only at ha hb <;> linarith
  · intro lo hi ms hmem t h1 h2
    refine matchInterval_hit t _ lo hi ms hmem h1 h2 ?_
    intro x hx hne
    rw [hJ] at hmem hx
    simp only [PROBE_RULES_JD, List.mem_cons, List.not_mem_nil, or_false] at hmem hx
    rcases hmem with hm | hm | hm | hm | hm | hm | hm <;> cases hm <;>
      rcases hx with hxx | hxx | hxx | hxx | hxx | hxx | hxx <;> subst hxx <;>
      (try exact absurd rfl hne) <;> rintro ⟨ha, hb⟩ <;> dsimp only at ha hb <;> linarith
  · intro wt t ht
    refine matchInterval_nil_of t _ ?_
    intro x hx
    unfold PROBE_RULES at hx
    split_ifs at hx
    · simp only [PROBE_RULES_D, List.mem_cons, List.not_mem_nil, or_false] at hx
      rcases hx with hxx | hxx | hxx | hxx | hxx | hxx | hxx <;> subst hxx <;>
        rintro ⟨ha, hb⟩ <;> dsimp only at ha hb <;> rcases ht with h | h <;> linarith
    · simp only [PROBE_RULES_JD, List.mem_cons, List.not_mem_nil, or_false] at hx
      rcases hx with hxx | hxx | hxx | hxx | hxx | hxx | hxx <;> subst hxx <;>
        rintro ⟨ha, hb⟩ <;> dsimp only at ha hb <;> rcases ht with h | h <;> linarith
    · simp at hx
  · rw [hD]
    simp [PROBE_RULES_D]
  · rw [hJ]
    simp [PROBE_RULES_JD]

/-- Witness for C3: thickness exactly at the lower bound 15 matches the
second butt interval, not the first. -/
theorem c3_first_interval_witness :
    matchInterval (PROBE_RULES "D") 15 = ["A2.5P9×9A70°"] :=
  (c3_first_interval).1 15 25 ["A2.5P9×9A70°"] (by decide) 15 le_rfl (by norm_num)

/-- C3 counterexample: thickness 10^9 is ≥ 100 yet matches no interval of the
butt table — the final interval's upper bound is a sentinel, not unbounded. -/
theorem c3_sentinel_counterexample :
    (100 : ℚ) ≤ 1000000000 ∧
    matchInterval (PROBE_RULES "D") 1000000000 = [] ∧
    ["A2.5P13×13A60°", "A2.5P13×13A45°"] ≠ ([] : List String) := by
  refine ⟨by norm_num, by decide, by simp⟩

/- ---- C8 ---- -/

/-- Rounding an integer-valued rational is the identity. -/
theorem pyRound_intCast (n : Int) : pyRound (n : ℚ) = n := by
  unfold pyRound
  simp [Int.floor_intCast]

/-- isValidDate holds on the first of a month for in-range year and month. -/
theorem isValidDate_first (y m : Nat) (h1 : 1 ≤ y) (h2 : y ≤ 9999) (h3 : 1 ≤ m)
    (h4 : m ≤ 12) : isValidDate y m 1 = true := by
  have hd : 1 ≤ daysInMonth y m := by
    unfold daysInMonth
    split_ifs <;> omega
  simp only [isValidDate, Bool.and_eq_true, decide_eq_true_eq]
  exact ⟨⟨⟨⟨⟨h1, h2⟩, h3⟩, h4⟩, le_refl 1⟩, hd⟩

/-- The arithmetic core at day 1 collapses to the month's mean: the
interpolation fraction is 0 and the perturbation ((1*37) mod 5) - 2 is 0. -/
theorem tempCore_day_one (dim next m y : Nat) :
    tempCore dim next ⟨y, m, 1⟩ = String.mk (intStr (month_mean m)) := by
  unfold tempCore
  norm_num
  rw [pyRound_intCast]

/-- C8: beijing_temp_guess_number is a pure function of its input (equal
dates give equal output), and — amended — for day 1 of any month of any
datetime-representable year except December 9999 (where the code raises,
see the counterexample) the output is exactly that month's table mean, with
no interpolation contribution. -/
theorem c8_pure_and_day1 :
    (∀ a b : Option Date, a = b →
      beijing_temp_guess_number a = beijing_temp_guess_number b) ∧
    (∀ y m : Nat, 1 ≤ y → y ≤ 9999 → 1 ≤ m → m ≤ 12 → (m = 12 → y ≤ 9998) →
      beijing_temp_guess_number (some ⟨y, m, 1⟩) =
        Except.ok (String.mk (intStr (month_mean m)))) := by
  constructor
  · intro a b h
    rw [h]
  · intro y m hy1 hy2 hm1 hm2 hdec
    unfold beijing_temp_guess_number
    by_cases h12 : m = 12
    · subst h12
      have hv1 : isValidDate (y + 1) 1 1 = true :=
        isValidDate_first (y + 1) 1 (by omega) (by omega) (by omega) (by omega)
      have hv2 : isValidDate y 12 1 = true :=
        isValidDate_first y 12 hy1 hy2 (by omega) (by omega)
      simp only [mkDate, hv1, hv2, if_true]
      rw [tempCore_day_one]
    · have hv1 : isValidDate y (m + 1) 1 = true :=
        isValidDate_first y (m + 1) hy1 hy2 (by omega) (by omega)
      have hv2 : isValidDate y m 1 = true :=
        isValidDate_first y m hy1 hy2 hm1 hm2
      simp only [mkDate, hv1, hv2, if_true, h12, if_false]
      rw [tempCore_day_one]

/-- Witness for C8 at May 1st 2024: the May mean, 20. -/
theorem c8_pure_and_day1_witness :
    beijing_temp_guess_number (some ⟨2024, 5, 1⟩) = Except.ok "20" := by
  have h := (c8_pure_and_day1).2 2024 5 (by omega) (by omega) (by omega) (by omega)
    (by omega)
  exact h.trans (by rfl)

/-- C8 counterexample: December 1st 9999 is a valid datetime, but the code
constructs datetime(10000, 1, 1) for the day count and raises, so "any
month of any year" fails at this input. -/
theorem c8_dec9999_counterexample :
    isValidDate 9999 12 1 = true ∧
    beijing_temp_guess_number (some ⟨9999, 12, 1⟩) = Except.error () :=
  ⟨by decide, by rfl⟩

end UTForm

namespace UTForm

/- ---- C6 ---- -/

/-- A known code is one of the seven table keys. -/
theorem known_cases (n : String) (h : isKnownCode n = true) :
    n = "GB50205-2020" ∨ n = "GB50661-2011" ∨ n = "JG/T203-2007" ∨ n = "GB/T50621-2010" ∨
      n = "GB/T11345-2023" ∨ n = "GB/T29712-2023" ∨ n = "GB/T29711-2023" := by
  simp only [isKnownCode, Bool.or_eq_true, decide_eq_true_eq] at h
  tauto

/-- Distinct known codes map to distinct output addresses. -/
theorem addrOf_inj {n1 n2 : String} (h1 : isKnownCode n1 = true) (h2 : isKnownCode n2 = true)
    (h : addrOf n1 = addrOf n2) : n1 = n2 := by
  rcases known_cases n1 h1 with rfl | rfl | rfl | rfl | rfl | rfl | rfl <;>
    rcases known_cases n2 h2 with rfl | rfl | rfl | rfl | rfl | rfl | rfl <;>
    first | rfl | (exact absurd h (by decide))

/-- A token whose normalized code is already used, or has an earlier
same-normalization token in the list, lands in the unknown (catch-all)
collection. -/
theorem dispatch_unknown_mem :
    ∀ (pre : List String) (used : List String) (b : String) (post : List String),
      isKnownCode (normFull b) = true →
      (normFull b ∈ used ∨ ∃ a ∈ pre, normFull a = normFull b) →
      pyStrip b ∈ (dispatchAux (pre ++ b :: post) used).2 := by
  intro pre
  induction pre with
  | nil =>
    intro used b post hk h
    rcases h with h | ⟨a, ha, _⟩
    · simp only [List.nil_append, dispatchAux]
      rw [if_neg (fun hc => hc.2 h)]
      exact List.mem_cons_self _ _
    · simp at ha
  | cons t pre ih =>
    intro used b post hk h
    simp only [List.cons_append, dispatchAux]
    by_cases hc : isKnownCode (normFull t) = true ∧ normFull t ∉ used
    · rw [if_pos hc]
      apply ih (normFull t :: used) b post hk
      rcases h with h | ⟨a, ha, hab⟩
      · exact Or.inl (List.mem_cons_of_mem _ h)
      · rcases List.mem_cons.mp ha with heq | ha2
        · have hab2 : normFull t = normFull b := heq ▸ hab
          exact Or.inl (hab2 ▸ List.mem_cons_self _ _)
        · exact Or.inr ⟨a, ha2, hab⟩
    · rw [if_neg hc]
      rcases h with h | ⟨a, ha, hab⟩
      · exact List.mem_cons_of_mem _ (ih used b post hk (Or.inl h))
      · rcases List.mem_cons.mp ha with heq | ha2
        · have hab2 : normFull t = normFull b := heq ▸ hab
          have ht : normFull t ∈ used := by
            by_contra hnu
            exact hc ⟨by rw [hab2]; exact hk, hnu⟩
          exact List.mem_cons_of_mem _ (ih used b post hk (Or.inl (hab2 ▸ ht)))
        · exact List.mem_cons_of_mem _ (ih used b post hk (Or.inr ⟨a, ha2, hab⟩))

/-- No write targets the address of a code that is already used. -/
theorem dispatch_writes_used :
    ∀ (toks used : List String) (n : String), isKnownCode n = true → n ∈ used →
      (dispatchAux toks used).1.filter (fun w => w.1 == addrOf n) = [] := by
  intro toks
  induction toks with
  | nil => intro used n _ _; rfl
  | cons t ts ih =>
    intro used n hk hu
    simp only [dispatchAux]
    by_cases hc : isKnownCode (normFull t) = true ∧ normFull t ∉ used
    · rw [if_pos hc]
      have hne : ¬((((addrOf (normFull t), pyStrip t) : String × String).1 == addrOf n) = true) := by
        simp only [beq_iff_eq]
        intro he
        exact hc.2 (addrOf_inj hc.1 hk he ▸ hu)
      dsimp only
      rw [@List.filter_cons_of_neg (String × String) (fun w => w.1 == addrOf n) _ _ hne]
      exact ih (normFull t :: used) n hk (List.mem_cons_of_mem _ hu)
    · rw [if_neg hc]
      exact ih used n hk hu

/-- The writes hitting a known, not-yet-used code's address are exactly one:
the stripped text of the first token normalizing to that code. -/
theorem dispatch_writes_filter :
    ∀ (toks used : List String) (n : String) (t0 : String),
      isKnownCode n = true → n ∉ used →
      toks.find? (fun t => normFull t == n) = some t0 →
      ((dispatchAux toks used).1.filter (fun w => w.1 == addrOf n)).map Prod.snd =
        [pyStrip t0] := by
  intro toks
  induction toks with
  | nil => intro used n t0 _ _ hf; simp at hf
  | cons t ts ih =>
    intro used n t0 hk hu hf
    simp only [dispatchAux]
    by_cases hn : normFull t = n
    · rw [List.find?_cons_of_pos _ (by simp [hn])] at hf
      injection hf with hf
      subst hf
      have hc : isKnownCode (normFull t) = true ∧ normFull t ∉ used := by
        rw [hn]; exact ⟨hk, hu⟩
      rw [if_pos hc]
      have hbeq : (((addrOf (normFull t), pyStrip t) : String × String).1 == addrOf n) = true := by
        simp [hn]
      dsimp only
      rw [@List.filter_cons_of_pos (String × String) (fun w => w.1 == addrOf n) _ _ hbeq]
      rw [dispatch_writes_used ts (normFull t :: used) n hk (hn ▸ List.mem_cons_self _ _)]
      rfl
    · rw [List.find?_cons_of_neg _ (by simp [hn])] at hf
      by_cases hc : isKnownCode (normFull t) = true ∧ normFull t ∉ used
      · rw [if_pos hc]
        have hne : ¬((((addrOf (normFull t), pyStrip t) : String × String).1 == addrOf n) = true) := by
          simp only [beq_iff_eq]
          intro he
          exact hn (addrOf_inj hc.1 hk he)
        dsimp only
        rw [@List.filter_cons_of_neg (String × String) (fun w => w.1 == addrOf n) _ _ hne]
        have hnu : n ∉ normFull t :: used := by
          intro hmem
          rcases List.mem_cons.mp hmem with h | h
          · exact hn h.symm
          · exact hu h
        exact ih (normFull t :: used) n t0 hk hnu hf
      · rw [if_neg hc]
        exact ih used n t0 hk hu hf

/-- A successful find? on a prefix is the find? of the whole list. -/
theorem find?_append_some {α : Type} (p : α → Bool) :
    ∀ (l1 l2 : List α) (b : α), l1.find? p = some b → (l1 ++ l2).find? p = some b := by
  intro l1
  induction l1 with
  | nil => intro l2 b h; simp at h
  | cons a l ih =>
    intro l2 b h
    by_cases hp : p a = true
    · rw [List.find?_cons_of_pos _ hp] at h
      rw [List.cons_append, List.find?_cons_of_pos _ hp]
      exact h
    · rw [List.find?_cons_of_neg _ (by simpa using hp)] at h
      rw [List.cons_append, List.find?_cons_of_neg _ (by simpa using hp)]
      exact ih l2 b h

/-- C6: write_detection_basis on the empty input performs exactly the eight
clearing writes (every slot and the catch-all) and nothing else; and for any
input whose token list contains a token b normalizing to a known code that
an earlier token a already normalized to, the later duplicate is routed to
the unknown (catch-all) collection — not dropped — while the code's slot
receives exactly one write, carrying the first such token (first occurrence
wins, no overwrite). -/
theorem c6_dispatch :
    (write_detection_basis "" =
      [("B12:B12", ""), ("C12:C12", ""), ("D12:D12", ""), ("E12:E12", ""), ("F12:F12", ""),
        ("G12:G12", ""), ("H12:H12", ""), ("I12:J12", "")]) ∧
    (∀ (s : String) (pre : List String) (b : String) (post : List String) (t0 : String),
      tokenizeBasis s = pre ++ b :: post →
      isKnownCode (normFull b) = true →
      (∃ a ∈ pre, normFull a = normFull b) →
      pre.find? (fun t => normFull t == normFull b) = some t0 →
      pyStrip b ∈ (dispatchAux (tokenizeBasis s) []).2 ∧
      ((dispatchAux (tokenizeBasis s) []).1.filter
          (fun w => w.1 == addrOf (normFull b))).map Prod.snd = [pyStrip t0]) := by
  constructor
  · rfl
  · intro s pre b post t0 htok hk hex hfind
    rw [htok]
    refine ⟨dispatch_unknown_mem pre [] b post hk (Or.inr hex), ?_⟩
    exact dispatch_writes_filter (pre ++ b :: post) [] (normFull b) t0 hk (by simp)
      (find?_append_some _ pre (b :: post) t0 hfind)

/-- Witness for C6: the duplicate token of "GB50205-2020，GB50205-2020" lands
in the catch-all collection and the slot is written once with the first. -/
theorem c6_dispatch_witness :
    pyStrip "GB50205-2020" ∈
      (dispatchAux (tokenizeBasis "GB50205-2020，GB50205-2020") []).2 ∧
    ((dispatchAux (tokenizeBasis "GB50205-2020，GB50205-2020") []).1.filter
        (fun w => w.1 == addrOf (normFull "GB50205-2020"))).map Prod.snd =
      [pyStrip "GB50205-2020"] :=
  (c6_dispatch).2 "GB50205-2020，GB50205-2020" ["GB50205-2020"] "GB50205-2020" []
    "GB50205-2020" (by decide) (by decide)
    ⟨"GB50205-2020", by decide, by decide⟩ (by decide)

end UTForm

namespace UTForm

/- ---- C7 / C10 helpers ---- -/

/-- Membership through stable insertion. -/
theorem mem_insortDay (x y : Date × List (Nat × Nat)) :
    ∀ l, y ∈ insortDay x l ↔ y = x ∨ y ∈ l := by
  intro l
  induction l with
  | nil => simp [insortDay]
  | cons z zs ih =>
    simp only [insortDay]
    by_cases h : dateKey z.1 ≤ dateKey x.1
    · rw [if_pos h]
      simp only [List.mem_cons, ih]
      exact or_left_comm
    · rw [if_neg h]
      simp only [List.mem_cons]

/-- Insertion preserves sortedness by dateKey. -/
theorem pairwise_insortDay (x : Date × List (Nat × Nat)) :
    ∀ l, l.Pairwise (fun a b => dateKey a.1 ≤ dateKey b.1) →
      (insortDay x l).Pairwise (fun a b => dateKey a.1 ≤ dateKey b.1) := by
  intro l
  induction l with
  | nil => intro _; simp [insortDay]
  | cons z zs ih =>
    intro hp
    rcases List.pairwise_cons.mp hp with ⟨hz, hzs⟩
    simp only [insortDay]
    by_cases h : dateKey z.1 ≤ dateKey x.1
    · rw [if_pos h]
      refine List.pairwise_cons.mpr ⟨?_, ih hzs⟩
      intro y hy
      rcases (mem_insortDay x y zs).mp hy with rfl | hy2
      · exact h
      · exact hz y hy2
    · rw [if_neg h]
      refine List.pairwise_cons.mpr ⟨?_, hp⟩
      intro y hy
      rcases List.mem_cons.mp hy with rfl | hy2
      · exact le_of_not_le h
      · exact le_trans (le_of_not_le h) (hz y hy2)

/-- The sort output is sorted ascending by dateKey. -/
theorem pairwise_sortDays (l : List (Date × List (Nat × Nat))) :
    (sortDays l).Pairwise (fun a b => dateKey a.1 ≤ dateKey b.1) := by
  induction l with
  | nil => simp [sortDays]
  | cons x xs ih =>
    exact pairwise_insortDay x _ ih

/-- The sort output has the same members as its input. -/
theorem mem_sortDays (y : Date × List (Nat × Nat)) :
    ∀ l, y ∈ sortDays l ↔ y ∈ l := by
  intro l
  induction l with
  | nil => simp [sortDays]
  | cons x xs ih =>
    simp only [sortDays, List.foldr_cons, List.mem_cons]
    rw [show List.foldr insortDay [] xs = sortDays xs from rfl] at *
    rw [mem_insortDay, ih]

/-- Every range closed by the marker fold ends exactly at its marker's row. -/
theorem rangesAux_end_marker :
    ∀ (markers : List (Nat × Nat × Nat)) (prev : Nat) (k : Nat × Nat) (se : Nat × Nat),
      (k, se) ∈ rangesAux prev markers → (se.2, k.1, k.2) ∈ markers := by
  intro markers
  induction markers with
  | nil => intro prev k se h; simp [rangesAux] at h
  | cons hd tl ih =>
    intro prev k se h
    obtain ⟨row, m, d⟩ := hd
    simp only [rangesAux, List.mem_cons] at h ⊢
    rcases h with h | h
    · injection h with h1 h2
      subst h1
      subst h2
      exact Or.inl rfl
    · exact Or.inr (ih row k se h)

/-- Members of an addGroup result are old members (possibly extended by the
new range) or the fresh singleton group. -/
theorem addGroup_mem :
    ∀ (acc : List ((Nat × Nat) × List (Nat × Nat))) (k0 r0 : Nat × Nat)
      (k : Nat × Nat) (rs : List (Nat × Nat)),
      (k, rs) ∈ addGroup acc k0 r0 → ∀ r ∈ rs,
        (∃ rs0, (k, rs0) ∈ acc ∧ r ∈ rs0) ∨ (k = k0 ∧ r = r0) := by
  intro acc
  induction acc with
  | nil =>
    intro k0 r0 k rs h r hr
    simp only [addGroup, List.mem_cons, List.not_mem_nil, or_false] at h
    injection h with h1 h2
    subst h1
    subst h2
    simp only [List.mem_singleton] at hr
    exact Or.inr ⟨rfl, hr⟩
  | cons g acc ih =>
    intro k0 r0 k rs h r hr
    obtain ⟨k1, rs1⟩ := g
    simp only [addGroup] at h
    by_cases hk : k1 = k0
    · rw [if_pos hk] at h
      rcases List.mem_cons.mp h with h1 | h1
      · injection h1 with ha hb
        subst ha
        subst hb
        rcases List.mem_append.mp hr with h2 | h2
        · exact Or.inl ⟨rs1, List.mem_cons_self _ _, h2⟩
        · simp only [List.mem_singleton] at h2
          exact Or.inr ⟨hk, h2⟩
      · exact Or.inl ⟨rs, List.mem_cons_of_mem _ h1, hr⟩
    · rw [if_neg hk] at h
      rcases List.mem_cons.mp h with h1 | h1
      · injection h1 with ha hb
        subst ha
        subst hb
        exact Or.inl ⟨_, List.mem_cons_self _ _, hr⟩
      · rcases ih k0 r0 k rs h1 r hr with ⟨rs0, h2, h3⟩ | h2
        · exact Or.inl ⟨rs0, List.mem_cons_of_mem _ h2, h3⟩
        · exact Or.inr h2

/-- Every range of a group produced by the grouping fold comes from the
accumulator or from the input pair list. -/
theorem groupRanges_fold_mem :
    ∀ (l : List ((Nat × Nat) × (Nat × Nat))) (acc : List ((Nat × Nat) × List (Nat × Nat)))
      (k : Nat × Nat) (rs : List (Nat × Nat)),
      (k, rs) ∈ List.foldl (fun acc kr => addGroup acc kr.1 kr.2) acc l →
      ∀ r ∈ rs, (∃ rs0, (k, rs0) ∈ acc ∧ r ∈ rs0) ∨ (k, r) ∈ l := by
  intro l
  induction l with
  | nil =>
    intro acc k rs h r hr
    exact Or.inl ⟨rs, h, hr⟩
  | cons kr l ih =>
    intro acc k rs h r hr
    rcases ih (addGroup acc kr.1 kr.2) k rs h r hr with ⟨rs0, h0, hr0⟩ | h2
    · rcases addGroup_mem acc kr.1 kr.2 k rs0 h0 r hr0 with ⟨rs1, hacc, hrr⟩ | ⟨hk, hrr⟩
      · exact Or.inl ⟨rs1, hacc, hrr⟩
      · subst hk
        subst hrr
        exact Or.inr (List.mem_cons_self _ _)
    · exact Or.inr (List.mem_cons_of_mem _ h2)

/-- Every range of a grouped output comes from the input pair list. -/
theorem groupRanges_mem (l : List ((Nat × Nat) × (Nat × Nat))) (k : Nat × Nat)
    (rs : List (Nat × Nat)) (h : (k, rs) ∈ groupRanges l) :
    ∀ r ∈ rs, (k, r) ∈ l := by
  intro r hr
  rcases groupRanges_fold_mem l [] k rs h r hr with ⟨rs0, h0, _⟩ | h2
  · simp at h0
  · exact h2

/- ---- C7 ---- -/

/-- C7: on the dataset whose marker column holds "3.31" at row 5 and "4/4"
at row 9 (data starting at row 2) with year hint 2025, the segmenter yields
exactly [(2025-03-31, [(2,5)]), (2025-04-04, [(6,9)])]; and for every
dataset and year hint the output is ordered ascending by date. -/
theorem c7_segments :
    (parse_day_ranges_from_source
        [none, none, none, some "3.31", none, none, none, some "4/4"] 2025 =
      [(⟨2025, 3, 31⟩, [(2, 5)]), (⟨2025, 4, 4⟩, [(6, 9)])]) ∧
    (∀ (cells : List (Option String)) (year_hint : Nat),
      (parse_day_ranges_from_source cells year_hint).Pairwise
        (fun a b => dateKey a.1 ≤ dateKey b.1)) := by
  constructor
  · rfl
  · intro cells year_hint
    unfold parse_day_ranges_from_source
    by_cases h : markersOf cells = []
    · rw [if_pos h]
      exact List.Pairwise.nil
    · rw [if_neg h]
      exact pairwise_sortDays _

/- ---- C10 ---- -/

/-- C10: every row range produced by the segmenter ends exactly at a marker
row of the marker column (carrying that segment's month and day), and no row
beyond every marker row belongs to any produced range. -/
theorem c10_ranges_end_at_markers :
    ∀ (cells : List (Option String)) (year_hint : Nat) (dt : Date)
      (rs : List (Nat × Nat)) (s e : Nat),
      (dt, rs) ∈ parse_day_ranges_from_source cells year_hint → (s, e) ∈ rs →
      (e, dt.month, dt.day) ∈ markersOf cells ∧
        (∀ r : Nat, (∀ row m d, (row, m, d) ∈ markersOf cells → row < r) →
          ¬(s ≤ r ∧ r ≤ e)) := by
  intro cells year_hint dt rs s e hmem hse
  unfold parse_day_ranges_from_source at hmem
  by_cases h : markersOf cells = []
  · rw [if_pos h] at hmem
    simp at hmem
  · rw [if_neg h] at hmem
    rw [mem_sortDays] at hmem
    rcases List.mem_filterMap.mp hmem with ⟨kr, hkr, hf⟩
    rcases hmk : mkDate year_hint kr.1.1 kr.1.2 with _ | dt0 <;> rw [hmk] at hf
    · simp at hf
    · injection hf with hf
      injection hf with hf1 hf2
      have hdt : dt = ⟨year_hint, kr.1.1, kr.1.2⟩ := by
        unfold mkDate at hmk
        by_cases hv : isValidDate year_hint kr.1.1 kr.1.2 = true
        · rw [if_pos hv] at hmk
          injection hmk with hmk
          rw [← hf1, ← hmk]
        · rw [if_neg hv] at hmk
          exact absurd hmk (by simp)
      have hrange :=
        groupRanges_mem (rangesAux 1 (markersOf cells)) kr.1 kr.2 hkr (s, e) (hf2 ▸ hse)
      have hend := rangesAux_end_marker (markersOf cells) 1 kr.1 (s, e) hrange
      have hend2 : (e, dt.month, dt.day) ∈ markersOf cells := by
        rw [hdt]
        exact hend
      refine ⟨hend2, ?_⟩
      intro r hall hc
      have := hall e dt.month dt.day hend2
      omega

/-- Witness for C10: in the one-marker dataset with "4.1" at row 3, the
produced range (2, 3) ends at the marker row 3 and no row past the last
marker row lies in it. -/
theorem c10_ranges_end_at_markers_witness :
    ((3, 4, 1) ∈ markersOf [none, some "4.1", none] ∧
      (∀ r : Nat, (∀ row m d, (row, m, d) ∈ markersOf [none, some "4.1", none] → row < r) →
        ¬(2 ≤ r ∧ r ≤ 3))) :=
  c10_ranges_end_at_markers [none, some "4.1", none] 2025 ⟨2025, 4, 1⟩ [(2, 3)] 2 3
    (by decide) (by decide)

end UTForm

namespace UTForm

/- ---- C5 ---- -/

/-- digitChar of a value below ten is an ASCII digit. -/
theorem digitChar_isDigit : ∀ d : Nat, d < 10 → (Nat.digitChar d).isDigit = true := by
  decide

/-- digitVal inverts digitChar below ten. -/
theorem digitVal_digitChar : ∀ d : Nat, d < 10 → digitVal (Nat.digitChar d) = d := by
  decide

/-- Every character printed by natStrAux is an ASCII digit. -/
theorem natStrAux_digits : ∀ (fuel n : Nat), ∀ c ∈ natStrAux fuel n, c.isDigit = true := by
  intro fuel
  induction fuel with
  | zero => intro n c hc; simp [natStrAux] at hc
  | succ fuel ih =>
    intro n c hc
    simp only [natStrAux] at hc
    by_cases h : n < 10
    · rw [if_pos h] at hc
      simp only [List.mem_singleton] at hc
      subst hc
      exact digitChar_isDigit n h
    · rw [if_neg h] at hc
      rcases List.mem_append.mp hc with h1 | h1
      · exact ih (n / 10) c h1
      · simp only [List.mem_singleton] at h1
        subst h1
        exact digitChar_isDigit (n % 10) (Nat.mod_lt _ (by norm_num))

/-- Value of a digit list extended by one trailing digit. -/
theorem valOf_append_one (l : List Char) (c : Char) :
    valOf (l ++ [c]) = 10 * valOf l + digitVal c := by
  unfold valOf
  rw [List.foldl_append]
  rfl

/-- natStrAux prints back the number it was given (fuel sufficient). -/
theorem valOf_natStrAux : ∀ (fuel n : Nat), n ≤ fuel → valOf (natStrAux fuel n) = n := by
  intro fuel
  induction fuel with
  | zero =>
    intro n h
    have : n = 0 := by omega
    subst this
    rfl
  | succ fuel ih =>
    intro n h
    simp only [natStrAux]
    by_cases h10 : n < 10
    · rw [if_pos h10]
      show 10 * 0 + digitVal (Nat.digitChar n) = n
      rw [digitVal_digitChar n h10]
      omega
    · rw [if_neg h10]
      have hlt : n / 10 < n := Nat.div_lt_self (by omega) (by norm_num)
      rw [valOf_append_one, ih (n / 10) (by omega),
        digitVal_digitChar (n % 10) (Nat.mod_lt _ (by norm_num))]
      omega

/-- Digit-count of natStrAux: k+1 characters for n in [10^k, 10^(k+1)). -/
theorem natStrAux_length : ∀ (fuel n k : Nat), n ≤ fuel → 10 ^ k ≤ n → n < 10 ^ (k + 1) →
    (natStrAux fuel n).length = k + 1 := by
  intro fuel
  induction fuel with
  | zero =>
    intro n k h h1 h2
    have hp : 0 < 10 ^ k := Nat.pos_pow_of_pos k (by norm_num)
    omega
  | succ fuel ih =>
    intro n k h h1 h2
    simp only [natStrAux]
    by_cases h10 : n < 10
    · rw [if_pos h10]
      have hk : k = 0 := by
        by_contra hk
        have h10k : 10 ≤ 10 ^ k := by
          calc (10 : Nat) = 10 ^ 1 := by norm_num
          _ ≤ 10 ^ k := Nat.pow_le_pow_right (by norm_num) (by omega)
        omega
      rw [hk]
      rfl
    · rw [if_neg h10]
      have hk1 : 1 ≤ k := by
        by_contra hk
        have : k = 0 := by omega
        subst this
        simp at h2
        omega
      have hm : 10 ^ (k - 1) * 10 = 10 ^ k := by
        rw [← pow_succ]
        congr 1
        omega
      have hm2 : 10 ^ k * 10 = 10 ^ (k + 1) := by
        rw [← pow_succ]
      have hdiv1 : 10 ^ (k - 1) ≤ n / 10 := by
        rw [Nat.le_div_iff_mul_le (by norm_num)]
        omega
      have hdiv2 : n / 10 < 10 ^ k := by
        rw [Nat.div_lt_iff_lt_mul (by norm_num)]
        omega
      have hlt : n / 10 < n := Nat.div_lt_self (by omega) (by norm_num)
      have := ih (n / 10) (k - 1) (by omega) hdiv1 (by
        have hke : k - 1 + 1 = k := by omega
        rw [hke]
        exact hdiv2)
      rw [List.length_append, this]
      simp only [List.length_singleton]
      omega

/-- Shape of a one-element list. -/
theorem list_shape1 {l : List Char} (h : l.length = 1) : ∃ a, l = [a] := by
  match l with
  | [a] => exact ⟨a, rfl⟩
  | [] => simp at h
  | _ :: _ :: _ =>
    simp only [List.length_cons] at h
    omega

/-- Shape of a two-element list. -/
theorem list_shape2 {l : List Char} (h : l.length = 2) : ∃ a b, l = [a, b] := by
  match l with
  | [a, b] => exact ⟨a, b, rfl⟩
  | [] => simp at h
  | [_] => simp at h
  | _ :: _ :: _ :: _ =>
    simp only [List.length_cons] at h
    omega

/-- Shape of a four-element list. -/
theorem list_shape4 {l : List Char} (h : l.length = 4) : ∃ a b c d, l = [a, b, c, d] := by
  match l with
  | [a, b, c, d] => exact ⟨a, b, c, d, rfl⟩
  | [] => simp at h
  | [_] => simp at h
  | [_, _] => simp at h
  | [_, _, _] => simp at h
  | _ :: _ :: _ :: _ :: _ :: _ =>
    simp only [List.length_cons] at h
    omega

/-- match4 consumes the four-digit print of a year in [1000, 9999]. -/
theorem match4_natStr (y : Nat) (rest : List Char) (h1 : 1000 ≤ y) (h2 : y ≤ 9999) :
    match4 (natStr y ++ rest) = some (y, rest) := by
  have hlen : (natStr y).length = 4 := by
    have := natStrAux_length (y + 1) y 3 (by omega) (by norm_num; omega) (by norm_num; omega)
    exact this
  obtain ⟨a, b, c, d, h4⟩ := list_shape4 hlen
  have hval := valOf_natStrAux (y + 1) y (by omega)
  have hdig := natStrAux_digits (y + 1) y
  rw [show natStrAux (y + 1) y = natStr y from rfl] at hval hdig
  rw [h4] at hval hdig ⊢
  have ha := hdig a (by simp)
  have hb := hdig b (by simp)
  have hc := hdig c (by simp)
  have hd := hdig d (by simp)
  simp only [List.cons_append, List.nil_append, match4, ha, hb, hc, hd, Bool.and_self,
    if_true]
  unfold valOf at hval
  simp only [List.foldl] at hval
  congr 1
  rw [Prod.mk.injEq]
  exact ⟨by omega, rfl⟩

/-- match12 consumes the one-or-two-digit print of a number in [1, 99]
followed by a non-digit delimiter. -/
theorem match12_natStr (delim : Char) (n : Nat) (rest : List Char)
    (h1 : 1 ≤ n) (h2 : n ≤ 99) (hd : delim.isDigit = false) :
    match12 delim (natStr n ++ delim :: rest) = some (n, rest) := by
  have hval := valOf_natStrAux (n + 1) n (by omega)
  have hdig := natStrAux_digits (n + 1) n
  rw [show natStrAux (n + 1) n = natStr n from rfl] at hval hdig
  by_cases h10 : n < 10
  · have hlen : (natStr n).length = 1 := by
      have := natStrAux_length (n + 1) n 0 (by omega) (by norm_num; omega) (by norm_num; omega)
      exact this
    obtain ⟨a, ha⟩ := list_shape1 hlen
    rw [ha] at hval hdig ⊢
    have hda := hdig a (by simp)
    unfold valOf at hval
    simp only [List.foldl] at hval
    simp only [List.cons_append, List.nil_append, match12, hda, hd, if_true, if_false,
      Bool.false_eq_true]
    congr 1
    rw [Prod.mk.injEq]
    exact ⟨by omega, rfl⟩
  · have hlen : (natStr n).length = 2 := by
      have := natStrAux_length (n + 1) n 1 (by omega) (by norm_num; omega) (by norm_num; omega)
      exact this
    obtain ⟨a, b, hab⟩ := list_shape2 hlen
    rw [hab] at hval hdig ⊢
    have hda := hdig a (by simp)
    have hdb := hdig b (by simp)
    unfold valOf at hval
    simp only [List.foldl] at hval
    simp only [List.cons_append, List.nil_append, match12, hda, hdb, if_true]
    congr 1
    rw [Prod.mk.injEq]
    exact ⟨by omega, rfl⟩

/-- Bounds that a valid calendar date imposes. -/
theorem isValidDate_bounds {y m d : Nat} (h : isValidDate y m d = true) :
    1 ≤ y ∧ y ≤ 9999 ∧ 1 ≤ m ∧ m ≤ 12 ∧ 1 ≤ d ∧ d ≤ 31 := by
  simp only [isValidDate, Bool.and_eq_true, decide_eq_true_eq] at h
  obtain ⟨⟨⟨⟨⟨h1, h2⟩, h3⟩, h4⟩, h5⟩, h6⟩ := h
  have : daysInMonth y m ≤ 31 := by
    unfold daysInMonth
    split_ifs <;> omega
  exact ⟨h1, h2, h3, h4, h5, by omega⟩

/-- The full date pattern matches the formatted string at position zero. -/
theorem matchDateAt_format (y m d : Nat) (h1 : 1000 ≤ y) (hv : isValidDate y m d = true) :
    matchDateAt (format_cn_date ⟨y, m, d⟩).toList = some ((y, m, d), []) := by
  obtain ⟨_, hy2, hm1, hm2, hd1, hd2⟩ := isValidDate_bounds hv
  have htl : (format_cn_date ⟨y, m, d⟩).toList =
      natStr y ++ ('年' :: (natStr m ++ ('月' :: (natStr d ++ ['日'])))) := rfl
  rw [htl]
  have hex : expectChar '年' ('年' :: (natStr m ++ ('月' :: (natStr d ++ ['日'])))) =
      some (natStr m ++ ('月' :: (natStr d ++ ['日']))) := by
    simp [expectChar]
  have hmon : match12 '月' (natStr m ++ ('月' :: (natStr d ++ ['日']))) =
      some (m, natStr d ++ ['日']) :=
    match12_natStr '月' m (natStr d ++ ['日']) hm1 (by omega) (by decide)
  have hday : match12 '日' (natStr d ++ ['日']) = some (d, []) :=
    match12_natStr '日' d [] hd1 (by omega) (by decide)
  simp only [matchDateAt, match4_natStr y _ h1 hy2, hex, hmon, hday]

/-- C5 (amended): the format/parse round-trip holds for every valid calendar
date whose year has four decimal digits (1000–9999); the format string does
not zero-pad the year, so the \d-four regex cannot see shorter years (see
the counterexample). -/
theorem c5_roundtrip (y m d : Nat) (h1 : 1000 ≤ y) (hv : isValidDate y m d = true) :
    parse_cn_date (format_cn_date ⟨y, m, d⟩) = some ⟨y, m, d⟩ := by
  have hmat := matchDateAt_format y m d h1 hv
  unfold parse_cn_date
  have htl : (format_cn_date ⟨y, m, d⟩).toList =
      natStr y ++ ('年' :: (natStr m ++ ('月' :: (natStr d ++ ['日'])))) := rfl
  have hlen : (natStr y).length = 4 := by
    obtain ⟨_, hy2, _⟩ := isValidDate_bounds hv
    exact natStrAux_length (y + 1) y 3 (by omega) (by norm_num; omega) (by norm_num; omega)
  obtain ⟨a, b, c, dd, h4⟩ := list_shape4 hlen
  rw [htl] at hmat ⊢
  rw [h4] at hmat ⊢
  simp only [List.cons_append, List.nil_append] at hmat ⊢
  simp only [searchDate, hmat, mkDate, hv, if_true]

/-- Witness for C5 at April 4th 2025. -/
theorem c5_roundtrip_witness :
    parse_cn_date (format_cn_date ⟨2025, 4, 4⟩) = some ⟨2025, 4, 4⟩ :=
  c5_roundtrip 2025 4 4 (by omega) (by decide)

/-- C5 counterexample: year 999 is a valid datetime year, but its unpadded
print has three digits, the \d-four pattern finds no match, and the
round-trip fails. -/
theorem c5_small_year_counterexample :
    isValidDate 999 1 1 = true ∧
    parse_cn_date (format_cn_date ⟨999, 1, 1⟩) = none :=
  ⟨by decide, by rfl⟩

end UTForm
